import Mathlib

/-!
Shallow embedding of the round-based task scheduler in `src/main.rs`.

The scheduler owns a list of pending tasks and a set of already-established
prerequisite "facts".  `Scheduler::start` loops: it partitions the pending
tasks into those whose prerequisites are a subset of the current fact set
and the rest, runs every eligible task (spawning a thread and joining it
immediately, one task at a time), merges the facts a `Finished` result
produces, and repeats until no tasks are pending.

Rust's `HashSet<Prerequisites>` is modelled as `Finset α`; a task's boxed
closure `FnMut() -> TaskResult` is modelled by the `TaskResult` value it
returns when executed (the scheduler runs each task body at most once, so a
single return value is a faithful model of one execution).
-/

universe u

namespace LyricScheduler

/-- The `Prerequisites` enum of the source (`src/main.rs` lines 8-12):
every "event" that can happen in the scheduler system. -/
inductive Prerequisites where
  | LoadedTSwift
  | LoadedColdplay
deriving DecidableEq, Repr

/-- The `TaskResult` enum (`src/main.rs` lines 15-18): a task either
finished, asserting a set of new prerequisites, or asks to be run again. -/
inductive TaskResult (α : Type u) where
  | Finished (newPrereqs : Finset α)
  | RunMeAgain
deriving DecidableEq

/-- A `Task` (`src/main.rs` lines 25-28): a set of prerequisites and a body.
The field `task` holds the `TaskResult` the body returns when executed. -/
structure Task (α : Type u) where
  prerequisites : Finset α
  task : TaskResult α
deriving DecidableEq

/-- The `Scheduler` struct (`src/main.rs` lines 32-35): all pending tasks,
and all the prerequisites that have already happened. -/
structure Scheduler (α : Type u) where
  tasks : List (Task α)
  prerequisites : Finset α
deriving DecidableEq

variable {α : Type u} [DecidableEq α]

/-- `Scheduler::new` (`src/main.rs` lines 68-73): no tasks, empty fact set. -/
def Scheduler.new : Scheduler α :=
  { tasks := [], prerequisites := ∅ }

/-- `Scheduler::add_task` (`src/main.rs` lines 64-66): push a task onto the
pending vector. -/
def Scheduler.add_task (s : Scheduler α) (t : Task α) : Scheduler α :=
  { s with tasks := s.tasks ++ [t] }

/-- The partition predicate of `Scheduler::start` (`src/main.rs` line 46):
`self.prerequisites.is_superset(&task.prerequisites)`. -/
def eligiblePred (facts : Finset α) (t : Task α) : Bool :=
  decide (t.prerequisites ⊆ facts)

/-- The `to_parallelise` half of the partition (`src/main.rs` lines 44-46):
the pending tasks whose prerequisites all hold. -/
def eligible (s : Scheduler α) : List (Task α) :=
  s.tasks.filter (eligiblePred s.prerequisites)

/-- The `others` half of the partition (`src/main.rs` lines 44-48): the
pending tasks kept for later rounds. -/
def blocked (s : Scheduler α) : List (Task α) :=
  s.tasks.filter (fun t => !eligiblePred s.prerequisites t)

/-- The facts a task's body asserts: the payload of `Finished`, nothing for
`RunMeAgain` (`src/main.rs` lines 56-58). -/
def produces (t : Task α) : Finset α :=
  match t.task with
  | .Finished newPrereqs => newPrereqs
  | .RunMeAgain => ∅

/-- Handling of one joined task result (`src/main.rs` lines 56-58):
`if let TaskResult::Finished(new_prereqs) = ... { self.prerequisites.extend(new_prereqs) }`. -/
def mergeOne (facts : Finset α) (t : Task α) : Finset α :=
  match t.task with
  | .Finished newPrereqs => facts ∪ newPrereqs
  | .RunMeAgain => facts

/-- One iteration of the `loop` in `Scheduler::start` (`src/main.rs`
lines 44-60), assuming `tasks` is non-empty: partition, keep the blocked
tasks pending, run every eligible task and merge its result.  When `tasks`
is empty this is the identity, matching the loop's early `break`. -/
def runRound (s : Scheduler α) : Scheduler α :=
  { tasks := blocked s
    prerequisites := (eligible s).foldl mergeOne s.prerequisites }

/-- `Scheduler::start` (`src/main.rs` lines 38-62) run for at most `n`
rounds, recording which tasks each executed round dispatched.  Returns the
per-round dispatch batches and the scheduler state afterwards; the loop
breaks as soon as `tasks` is empty. -/
def runTrace : Nat → Scheduler α → List (List (Task α)) × Scheduler α
  | 0, s => ([], s)
  | n + 1, s =>
    if s.tasks.isEmpty then ([], s)
    else
      let r := runTrace n (runRound s)
      (eligible s :: r.1, r.2)

/-- `HashSet::extend` on the fact set (`src/main.rs` line 57): add every
element of `newFacts`. -/
def merge (facts newFacts : Finset α) : Finset α :=
  facts ∪ newFacts

/-- A thread-lifecycle event inside one round of `Scheduler::start`. -/
inductive ThreadEvent (α : Type u) where
  | spawn (t : Task α)
  | join (t : Task α)
deriving DecidableEq

/-- Whether an event is a spawn. -/
def ThreadEvent.isSpawn : ThreadEvent α → Bool
  | .spawn _ => true
  | .join _ => false

/-- Whether an event is a join. -/
def ThreadEvent.isJoin : ThreadEvent α → Bool
  | .spawn _ => false
  | .join _ => true

/-- The thread events of one round, in program order (`src/main.rs`
lines 50-59): the `for` loop spawns each task of `to_parallelise` and calls
`result.join()` on it before moving to the next task. -/
def roundEvents (toParallelise : List (Task α)) : List (ThreadEvent α) :=
  (toParallelise.map (fun t => [ThreadEvent.spawn t, ThreadEvent.join t])).flatten

/-- The spec's concurrency discipline for one round: a thread is only ever
joined after every thread of the round has been spawned (the join barrier
comes after all dispatches, so no task's start waits on another task's
completion). -/
def barrierOnly (es : List (ThreadEvent α)) : Prop :=
  ∀ i j : Fin es.length, (es.get i).isJoin → (es.get j).isSpawn → (j : ℕ) < (i : ℕ)

instance (es : List (ThreadEvent α)) : Decidable (barrierOnly es) :=
  inferInstanceAs (Decidable (∀ i j : Fin es.length,
    (es.get i).isJoin → (es.get j).isSpawn → (j : ℕ) < (i : ℕ)))

/-- One step of the fact-closure used to state satisfiability (from the
spec's termination condition): everything the currently-eligible tasks of
`ts` would add to `facts`. -/
def closStep (ts : List (Task α)) (facts : Finset α) : Finset α :=
  (ts.filter (eligiblePred facts)).foldl mergeOne facts

/-- Iterated fact-closure: the facts obtainable in `k` waves starting from
`facts`, with the whole task pool `ts` available in every wave. -/
def clos (ts : List (Task α)) (facts : Finset α) : Nat → Finset α
  | 0 => facts
  | k + 1 => closStep ts (clos ts facts k)

/-- The spec's satisfiability condition on a scheduler: every pending
task's prerequisites are eventually reachable by the fact-closure. -/
def Satisfiable (s : Scheduler α) : Prop :=
  ∀ t ∈ s.tasks, ∃ k, t.prerequisites ⊆ clos s.tasks s.prerequisites k

/-- Task1 of the spec's concrete scenario (`src/main.rs` lines 108-115):
no prerequisites, produces `LoadedTSwift`. -/
def task1 : Task Prerequisites :=
  { prerequisites := ∅, task := .Finished {Prerequisites.LoadedTSwift} }

/-- Task2 of the spec's concrete scenario (`src/main.rs` lines 117-124):
no prerequisites, produces `LoadedColdplay`. -/
def task2 : Task Prerequisites :=
  { prerequisites := ∅, task := .Finished {Prerequisites.LoadedColdplay} }

/-- Task3 of the spec's concrete scenario (`src/main.rs` lines 132-160):
requires both facts, produces nothing. -/
def task3 : Task Prerequisites :=
  { prerequisites := {Prerequisites.LoadedTSwift, Prerequisites.LoadedColdplay}
    task := .Finished ∅ }

/-- The three-task scheduler of the spec's concrete scenario. -/
def demoScheduler : Scheduler Prerequisites :=
  ((Scheduler.new.add_task task1).add_task task2).add_task task3

/-- A task whose body answers `RunMeAgain`. -/
def runAgainTask : Task Prerequisites :=
  { prerequisites := ∅, task := .RunMeAgain }

/-! ### Basic lemmas about merging and the fact-closure -/

theorem mergeOne_eq (facts : Finset α) (t : Task α) :
    mergeOne facts t = facts ∪ produces t := by
  unfold mergeOne produces
  cases t.task <;> simp

theorem subset_foldl_mergeOne (ts : List (Task α)) (facts : Finset α) :
    facts ⊆ ts.foldl mergeOne facts := by
  induction ts generalizing facts with
  | nil => exact Finset.Subset.refl _
  | cons t ts ih =>
    refine Finset.Subset.trans ?_ (ih (mergeOne facts t))
    rw [mergeOne_eq]
    exact Finset.subset_union_left

theorem mem_foldl_mergeOne (ts : List (Task α)) (facts : Finset α) (x : α) :
    x ∈ ts.foldl mergeOne facts ↔ x ∈ facts ∨ ∃ t ∈ ts, x ∈ produces t := by
  induction ts generalizing facts with
  | nil => simp
  | cons t ts ih =>
    rw [List.foldl_cons, ih, mergeOne_eq]
    simp only [Finset.mem_union, List.mem_cons]
    constructor
    · rintro ((hx | hx) | ⟨u, hu, hx⟩)
      · exact Or.inl hx
      · exact Or.inr ⟨t, Or.inl rfl, hx⟩
      · exact Or.inr ⟨u, Or.inr hu, hx⟩
    · rintro (hx | ⟨u, rfl | hu, hx⟩)
      · exact Or.inl (Or.inl hx)
      · exact Or.inl (Or.inr hx)
      · exact Or.inr ⟨u, hu, hx⟩

theorem subset_closStep (ts : List (Task α)) (facts : Finset α) :
    facts ⊆ closStep ts facts :=
  subset_foldl_mergeOne _ _

theorem mem_closStep (ts : List (Task α)) (facts : Finset α) (x : α) :
    x ∈ closStep ts facts ↔
      x ∈ facts ∨ ∃ t ∈ ts, t.prerequisites ⊆ facts ∧ x ∈ produces t := by
  unfold closStep
  rw [mem_foldl_mergeOne]
  simp [List.mem_filter, eligiblePred, and_assoc]

theorem subset_clos (ts : List (Task α)) (facts : Finset α) (k : Nat) :
    facts ⊆ clos ts facts k := by
  induction k with
  | zero => exact Finset.Subset.refl _
  | succ k ih => exact ih.trans (subset_closStep _ _)

theorem closStep_mono {ts ts' : List (Task α)} {f f' : Finset α}
    (hts : ∀ t ∈ ts', t ∈ ts) (hf : f ⊆ f') : closStep ts' f ⊆ closStep ts f' := by
  intro x hx
  rw [mem_closStep] at hx ⊢
  rcases hx with hx | ⟨t, ht, hsub, hp⟩
  · exact Or.inl (hf hx)
  · exact Or.inr ⟨t, hts t ht, hsub.trans hf, hp⟩

theorem clos_const {ts : List (Task α)} {facts : Finset α}
    (h : closStep ts facts = facts) (k : Nat) : clos ts facts k = facts := by
  induction k with
  | zero => rfl
  | succ k ih =>
    show closStep ts (clos ts facts k) = facts
    rw [ih, h]

/-! ### Lemmas about a single round and the round iteration -/

theorem runRound_tasks (s : Scheduler α) : (runRound s).tasks = blocked s := rfl

theorem runRound_prereqs (s : Scheduler α) :
    (runRound s).prerequisites = closStep s.tasks s.prerequisites := rfl

theorem eligible_append_blocked_perm (s : Scheduler α) :
    (eligible s ++ blocked s).Perm s.tasks :=
  List.filter_append_perm _ _

theorem clos_runRound (s : Scheduler α) (k : Nat) :
    clos s.tasks s.prerequisites k ⊆
      clos (runRound s).tasks (runRound s).prerequisites k := by
  induction k with
  | zero => exact subset_closStep _ _
  | succ k ih =>
    intro x hx
    have hx' : x ∈ closStep s.tasks (clos s.tasks s.prerequisites k) := hx
    rw [mem_closStep] at hx'
    show x ∈ closStep (runRound s).tasks
      (clos (runRound s).tasks (runRound s).prerequisites k)
    rcases hx' with hx' | ⟨t, ht, hsub, hp⟩
    · exact subset_closStep _ _ (ih hx')
    · by_cases he : eligiblePred s.prerequisites t = true
      · have hx2 : x ∈ (runRound s).prerequisites := by
          rw [runRound_prereqs, mem_closStep]
          exact Or.inr ⟨t, ht, of_decide_eq_true he, hp⟩
        exact subset_closStep _ _ (subset_clos _ _ _ hx2)
      · rw [mem_closStep]
        refine Or.inr ⟨t, ?_, fun y hy => ih (hsub hy), hp⟩
        rw [runRound_tasks]
        exact List.mem_filter.mpr ⟨ht, by simp [he]⟩

theorem satisfiable_runRound {s : Scheduler α} (h : Satisfiable s) :
    Satisfiable (runRound s) := by
  intro t ht
  have ht' : t ∈ s.tasks := (List.filter_sublist _).subset ht
  obtain ⟨k, hk⟩ := h t ht'
  exact ⟨k, hk.trans (clos_runRound s k)⟩

theorem eligible_ne_nil {s : Scheduler α} (hne : s.tasks ≠ []) (hsat : Satisfiable s) :
    eligible s ≠ [] := by
  intro hel
  have hall : ∀ t ∈ s.tasks, eligiblePred s.prerequisites t = false := by
    intro t ht
    by_contra hc
    have hmem : t ∈ eligible s :=
      List.mem_filter.mpr ⟨ht, by simpa using hc⟩
    rw [hel] at hmem
    exact List.not_mem_nil t hmem
  have hstep : closStep s.tasks s.prerequisites = s.prerequisites := by
    unfold closStep
    have hfil : s.tasks.filter (eligiblePred s.prerequisites) = [] := by
      rw [List.filter_eq_nil_iff]
      intro t ht
      simp [hall t ht]
    rw [hfil, List.foldl_nil]
  obtain ⟨t, ht⟩ := List.exists_mem_of_ne_nil s.tasks hne
  obtain ⟨k, hk⟩ := hsat t ht
  rw [clos_const hstep k] at hk
  have hfalse := hall t ht
  rw [eligiblePred, decide_eq_false_iff_not] at hfalse
  exact hfalse hk

theorem length_blocked_lt {s : Scheduler α} (h : eligible s ≠ []) :
    (blocked s).length < s.tasks.length := by
  have hlen := (eligible_append_blocked_perm s).length_eq
  rw [List.length_append] at hlen
  have hpos : 0 < (eligible s).length := List.length_pos.mpr h
  omega

/-! ### Unfolding the traced run -/

theorem runTrace_succ_of_nil {s : Scheduler α} (h : s.tasks = []) (n : Nat) :
    runTrace (n + 1) s = ([], s) := by
  rw [runTrace]
  simp [h]

theorem runTrace_succ_of_ne {s : Scheduler α} (h : s.tasks ≠ []) (n : Nat) :
    runTrace (n + 1) s =
      (eligible s :: (runTrace n (runRound s)).1, (runTrace n (runRound s)).2) := by
  rw [runTrace]
  simp [List.isEmpty_iff, h]

theorem runTrace_full (s : Scheduler α) (n : Nat)
    (h : ∀ m, m < n → (runRound^[m] s).tasks ≠ []) :
    (runTrace n s).1.length = n ∧ (runTrace n s).2 = runRound^[n] s := by
  induction n generalizing s with
  | zero => exact ⟨rfl, rfl⟩
  | succ n ih =>
    have h0 : s.tasks ≠ [] := by simpa using h 0 (Nat.succ_pos n)
    rw [runTrace_succ_of_ne h0]
    have ih' := ih (runRound s) (fun m hm => by
      rw [← Function.iterate_succ_apply]
      exact h (m + 1) (Nat.succ_lt_succ hm))
    refine ⟨by simpa using ih'.1, ?_⟩
    rw [Function.iterate_succ_apply]
    exact ih'.2

/-! ### Invariants of the iterated round function -/

theorem tasks_iterate_sublist (s : Scheduler α) (n : Nat) :
    List.Sublist ((runRound^[n] s).tasks) s.tasks := by
  induction n with
  | zero => exact List.Sublist.refl _
  | succ n ih =>
    rw [Function.iterate_succ_apply']
    exact (List.filter_sublist _).trans ih

theorem prereqs_iterate_subset_clos (s : Scheduler α) (n : Nat) :
    (runRound^[n] s).prerequisites ⊆ clos s.tasks s.prerequisites n := by
  induction n with
  | zero => exact Finset.Subset.refl _
  | succ n ih =>
    rw [Function.iterate_succ_apply']
    show closStep (runRound^[n] s).tasks (runRound^[n] s).prerequisites ⊆
      closStep s.tasks (clos s.tasks s.prerequisites n)
    exact closStep_mono (fun t ht => (tasks_iterate_sublist s n).subset ht) ih

theorem unsat_task_stays (s : Scheduler α) (t : Task α) (ht : t ∈ s.tasks)
    (hu : ∀ k, ¬ t.prerequisites ⊆ clos s.tasks s.prerequisites k) (n : Nat) :
    t ∈ (runRound^[n] s).tasks := by
  induction n with
  | zero => exact ht
  | succ n ih =>
    rw [Function.iterate_succ_apply']
    show t ∈ blocked (runRound^[n] s)
    refine List.mem_filter.mpr ⟨ih, ?_⟩
    have hnot : ¬ t.prerequisites ⊆ (runRound^[n] s).prerequisites := by
      intro hsub
      exact hu n (hsub.trans (prereqs_iterate_subset_clos s n))
    simp [eligiblePred, hnot]

/-! ### Termination under satisfiability -/

theorem start_aux (m : Nat) :
    ∀ s : Scheduler α, s.tasks.length ≤ m → Satisfiable s →
      ∃ n, (runTrace n s).2.tasks = [] ∧
        ((runTrace n s).1.flatten).Perm s.tasks := by
  induction m with
  | zero =>
    intro s hlen _
    have hnil : s.tasks = [] := List.length_eq_zero.mp (Nat.le_zero.mp hlen)
    exact ⟨0, hnil, by rw [hnil]; exact List.Perm.refl _⟩
  | succ m ih =>
    intro s hlen hsat
    by_cases hne : s.tasks = []
    · exact ⟨0, hne, by rw [hne]; exact List.Perm.refl _⟩
    · have hel := eligible_ne_nil hne hsat
      have hlt := length_blocked_lt hel
      have hlen' : (runRound s).tasks.length ≤ m := by
        rw [runRound_tasks]
        omega
      obtain ⟨n, h1, h2⟩ := ih (runRound s) hlen' (satisfiable_runRound hsat)
      refine ⟨n + 1, ?_, ?_⟩
      · rw [runTrace_succ_of_ne hne]
        exact h1
      · rw [runTrace_succ_of_ne hne]
        show ((eligible s :: (runTrace n (runRound s)).1).flatten).Perm s.tasks
        rw [List.flatten_cons]
        refine List.Perm.trans ?_ (eligible_append_blocked_perm s)
        exact (h2.trans (by rw [runRound_tasks])).append_left (eligible s)

/-- A task requiring a fact that no task ever produces. -/
def stuckTask : Task Prerequisites :=
  { prerequisites := {Prerequisites.LoadedTSwift}, task := .Finished ∅ }

/-- A scheduler whose only task can never become eligible. -/
def stuckScheduler : Scheduler Prerequisites :=
  Scheduler.new.add_task stuckTask

/-- A scheduler whose only task answers `RunMeAgain`. -/
def runAgainScheduler : Scheduler Prerequisites :=
  Scheduler.new.add_task runAgainTask

/-! ### The claims -/

/-- C1: for every set of registered tasks whose prerequisite graph is
acyclic and satisfiable (every task's required facts are eventually
producible by tasks eligible in some earlier or same round), the blocking
run call terminates — after finitely many rounds the pending list is empty
and the loop breaks — and the tasks dispatched over all rounds are exactly
the registered tasks, each executed exactly once (the concatenation of the
dispatch batches is a permutation of the registered task list). -/
theorem start_terminates_all_run_once (s : Scheduler α) (hsat : Satisfiable s) :
    ∃ n, (runTrace n s).2.tasks = [] ∧
      ((runTrace n s).1.flatten).Perm s.tasks :=
  start_aux s.tasks.length s (Nat.le_refl _) hsat

theorem start_terminates_all_run_once_witness :
    ∃ n, (runTrace n demoScheduler).2.tasks = [] ∧
      ((runTrace n demoScheduler).1.flatten).Perm demoScheduler.tasks :=
  start_terminates_all_run_once demoScheduler (fun t ht => ⟨1, by
    have hts : demoScheduler.tasks = [task1, task2, task3] := rfl
    rw [hts] at ht
    simp only [List.mem_cons, List.not_mem_nil, or_false] at ht
    rcases ht with rfl | rfl | rfl <;> decide⟩)

/-- C2: a task is dispatched in round `i` only if at the moment of that
round's partition every one of its declared prerequisites is already in
the fact set: any task `t` appearing in the `i`-th dispatch batch of a run
has `t.prerequisites` contained in the fact set held after `i` rounds. -/
theorem dispatched_prereqs_held (s : Scheduler α) (n i : Nat) (b : List (Task α))
    (t : Task α) (hb : (runTrace n s).1.get? i = some b) (ht : t ∈ b) :
    t.prerequisites ⊆ (runRound^[i] s).prerequisites := by
  induction n generalizing s i with
  | zero =>
    exact absurd hb (by simp [runTrace])
  | succ n ihn =>
    by_cases hne : s.tasks = []
    · rw [runTrace_succ_of_nil hne] at hb
      exact absurd hb (by simp)
    · rw [runTrace_succ_of_ne hne] at hb
      cases i with
      | zero =>
        have hbe : b = eligible s := by
          simpa using hb.symm
        subst hbe
        exact of_decide_eq_true (List.mem_filter.mp ht).2
      | succ i =>
        rw [Function.iterate_succ_apply]
        exact ihn (runRound s) i (by simpa using hb)

theorem dispatched_prereqs_held_witness :
    task3.prerequisites ⊆ (runRound^[1] demoScheduler).prerequisites :=
  dispatched_prereqs_held demoScheduler 2 1 [task3] task3 (by decide) (by decide)

/-- C3: if some registered task's prerequisites can never be satisfied
(they are not contained in any iterate of the fact-closure), then that
task is still pending after every number of rounds, the pending list is
never empty, and the loop never breaks: a run of `n` rounds always
executes all `n` rounds, for every `n`. -/
theorem unsatisfiable_never_returns (s : Scheduler α) (t : Task α)
    (ht : t ∈ s.tasks)
    (hu : ∀ k, ¬ t.prerequisites ⊆ clos s.tasks s.prerequisites k) (n : Nat) :
    t ∈ (runRound^[n] s).tasks ∧ (runRound^[n] s).tasks ≠ [] ∧
      ((runTrace n s).1).length = n := by
  have hmem := unsat_task_stays s t ht hu n
  have hne : ∀ m, (runRound^[m] s).tasks ≠ [] := fun m hnil => by
    have := unsat_task_stays s t ht hu m
    rw [hnil] at this
    exact List.not_mem_nil t this
  exact ⟨hmem, hne n, (runTrace_full s n (fun m _ => hne m)).1⟩

theorem unsatisfiable_never_returns_witness :
    stuckTask ∈ (runRound^[5] stuckScheduler).tasks ∧
      (runRound^[5] stuckScheduler).tasks ≠ [] ∧
      ((runTrace 5 stuckScheduler).1).length = 5 :=
  unsatisfiable_never_returns stuckScheduler stuckTask (by decide)
    (fun k => by rw [clos_const (by decide) k]; decide) 5

/-- C4: evidence against the claim that all eligible tasks of a round run
concurrently with only an end-of-round join barrier.  In the round that
dispatches `task1` and `task2` (round 1 of the demo scheduler), the
program-order thread events are spawn 1, join 1, spawn 2, join 2: the
second task's spawn comes after the first task's join, so each task is
joined before the next is even started, violating the barrier-only
discipline the spec describes. -/
theorem round_serializes_tasks :
    eligible demoScheduler = [task1, task2] ∧
      roundEvents [task1, task2] =
        [ThreadEvent.spawn task1, ThreadEvent.join task1,
         ThreadEvent.spawn task2, ThreadEvent.join task2] ∧
      ¬ barrierOnly (roundEvents [task1, task2]) := by decide

/-- C5: the fact set grows monotonically: the fact set after `n + 1`
rounds contains the fact set after `n` rounds, merging one task result
never removes a fact, and a whole round never removes a fact (partition
and dispatch do not touch the fact set at all in the model). -/
theorem facts_monotone (s : Scheduler α) (n : Nat) (facts : Finset α) (t : Task α) :
    (runRound^[n] s).prerequisites ⊆ (runRound^[n + 1] s).prerequisites ∧
      facts ⊆ mergeOne facts t ∧
      s.prerequisites ⊆ (runRound s).prerequisites := by
  refine ⟨?_, ?_, subset_closStep _ _⟩
  · rw [Function.iterate_succ_apply']
    exact subset_closStep _ _
  · rw [mergeOne_eq]
    exact Finset.subset_union_left

/-- C6: on the three-task scenario (Task1 and Task2 with no prerequisites
producing one fact each, Task3 requiring both facts), the run takes
exactly two rounds: round 1 dispatches Task1 and Task2, round 2 dispatches
Task3, after two rounds no task is pending and both facts are in the fact
set, all three tasks having been dispatched exactly once; after only one
round, Task3 is still pending. -/
theorem demo_two_rounds :
    runTrace 2 demoScheduler =
      ([[task1, task2], [task3]],
        { tasks := [],
          prerequisites := {Prerequisites.LoadedTSwift, Prerequisites.LoadedColdplay} }) ∧
      ((runTrace 2 demoScheduler).1.flatten = demoScheduler.tasks) ∧
      (runTrace 1 demoScheduler).2.tasks ≠ [] := by decide

/-- C7: merging facts into the fact set is idempotent: merging `N` twice
gives the same set as merging it once, and merging facts that are already
present leaves the fact set unchanged. -/
theorem merge_idempotent (S N : Finset α) :
    merge (merge S N) N = merge S N ∧ (N ⊆ S → merge S N = S) := by
  constructor
  · show S ∪ N ∪ N = S ∪ N
    rw [Finset.union_assoc, Finset.union_idempotent]
  · intro h
    exact Finset.union_eq_left.mpr h

theorem merge_idempotent_witness :
    merge (merge ∅ {Prerequisites.LoadedTSwift}) {Prerequisites.LoadedTSwift} =
        merge ∅ {Prerequisites.LoadedTSwift} ∧
      merge {Prerequisites.LoadedTSwift} {Prerequisites.LoadedTSwift} =
        {Prerequisites.LoadedTSwift} :=
  ⟨(merge_idempotent ∅ {Prerequisites.LoadedTSwift}).1,
   (merge_idempotent {Prerequisites.LoadedTSwift} {Prerequisites.LoadedTSwift}).2
     (by decide)⟩

/-- C8: a registered task with an empty prerequisite set is eligible in
round 1 (the empty set is a subset of any fact set), and round 1's
dispatch batch of any run that executes at least one round is exactly the
eligible list containing it. -/
theorem empty_prereqs_round1 (s : Scheduler α) (t : Task α) (n : Nat)
    (ht : t ∈ s.tasks) (he : t.prerequisites = ∅) :
    t ∈ eligible s ∧ (runTrace (n + 1) s).1.get? 0 = some (eligible s) := by
  have hne : s.tasks ≠ [] := fun h => by
    rw [h] at ht
    exact List.not_mem_nil t ht
  refine ⟨List.mem_filter.mpr ⟨ht, ?_⟩, by rw [runTrace_succ_of_ne hne]; rfl⟩
  simp [eligiblePred, he]

theorem empty_prereqs_round1_witness :
    task1 ∈ eligible demoScheduler ∧
      (runTrace 1 demoScheduler).1.get? 0 = some (eligible demoScheduler) :=
  empty_prereqs_round1 demoScheduler task1 0 (by decide) rfl

/-- C9: a task whose body answers `RunMeAgain` is discarded: handling its
result merges nothing into the fact set, and a round's pending list
afterwards consists exactly of the tasks that were not dispatched (the
dispatched batch plus the new pending list is a permutation of the old
pending list, so a dispatched task is never returned to it). -/
theorem run_again_discarded (s : Scheduler α) (t : Task α) (facts : Finset α)
    (h : t.task = TaskResult.RunMeAgain) :
    mergeOne facts t = facts ∧
      (eligible s ++ (runRound s).tasks).Perm s.tasks := by
  refine ⟨?_, eligible_append_blocked_perm s⟩
  unfold mergeOne
  rw [h]

theorem run_again_discarded_witness :
    mergeOne {Prerequisites.LoadedTSwift} runAgainTask = {Prerequisites.LoadedTSwift} ∧
      (eligible runAgainScheduler ++ (runRound runAgainScheduler).tasks).Perm
        runAgainScheduler.tasks :=
  run_again_discarded runAgainScheduler runAgainTask {Prerequisites.LoadedTSwift} rfl

/-- C10: running a scheduler with no registered tasks returns immediately:
for any round budget the trace is empty (no round is executed, so nothing
is ever dispatched) and the scheduler is unchanged, its fact set still the
empty set it was given at construction. -/
theorem run_empty_scheduler (n : Nat) :
    runTrace n (Scheduler.new : Scheduler α) = ([], Scheduler.new) ∧
      (Scheduler.new : Scheduler α).prerequisites = ∅ := by
  refine ⟨?_, rfl⟩
  cases n with
  | zero => rfl
  | succ n => rfl

end LyricScheduler
